import Mathlib

/-!
Verification development for the cli-modplayer playback engine.

Shallow embedding of the relevant code: the seek arithmetic of
`Player::jump_rows` / `Player::jump_to_order`, the `finished` flag handling of
`Player::playback_loop`, the waveform ring sampler `Player::update_waveform`,
the DSP state machines of `AudioEffects`, the export path
`Player::export_to_file` / `AudioExporter::export_audio`, and the PCM
conversion `AudioExporter::float_to_int16` (all from src/src/player.cpp,
src/src/audio_effects.cpp, src/src/audio_exporter.cpp).

Modelling conventions: C++ `int` becomes `ℤ`, `std::size_t` becomes `ℕ`
(with the unsigned-wrap subtraction modelled exactly, see `usub`),
`float`/`double` sample values become `ℚ` with the source's decimal literals
read exactly (the usual idealisation of binary floating point by exact
rationals), and the opaque external decoder (libopenmpt), the audio device,
and the LFO `std::sin` evaluations are universally quantified oracle
parameters.
-/

namespace Tracker

/-- `std::clamp(v, lo, hi)` for integers (precondition `lo ≤ hi` as in C++). -/
def clampZ (v lo hi : ℤ) : ℤ := if v < lo then lo else if hi < v then hi else v

/-- `std::clamp(v, lo, hi)` for rational values. -/
def clampQ (v lo hi : ℚ) : ℚ := if v < lo then lo else if hi < v then hi else v

/-- `std::clamp(v, -1.0f, 1.0f)` on sample values. -/
def clamp1 (v : ℚ) : ℚ := if v < -1 then -1 else if 1 < v then 1 else v

/-- C++ unsigned (`std::size_t`) subtraction `a - b`, wrapping modulo `2^64`. -/
def usub (a b : ℕ) : ℕ := (((a : ℤ) - (b : ℤ)) % (2 ^ 64)).toNat

/-- Ring-buffer read index `(w + cap - d) % cap` as computed on `std::size_t`
in audio_effects.cpp (the addition never overflows for the values used). -/
def ring_read (cap w d : ℕ) : ℕ := usub (w + cap) d % cap

/-! ## AudioExporter (src/src/audio_exporter.cpp) -/

/-- `ExportFormat` from audio_exporter.hpp. -/
inductive ExportFormat
  | WAV
  | MP3
  | FLAC
deriving DecidableEq

/-- `AudioExporter::is_format_supported`.  The `HAVE_LAME` / `HAVE_FLAC`
preprocessor switches are the two Boolean parameters. -/
def is_format_supported (haveLame haveFlac : Bool) : ExportFormat → Bool
  | ExportFormat.WAV => true
  | ExportFormat.MP3 => haveLame
  | ExportFormat.FLAC => haveFlac

/-- `AudioExporter::float_to_int16`: clamp to `[-1, 1]`, then scale
non-negative samples by 32767 and negative ones by 32768; the
`static_cast<std::int16_t>` truncates toward zero (floor on the non-negative
branch, ceiling on the negative branch). -/
def float_to_int16 (sample : ℚ) : ℤ :=
  if 0 ≤ clamp1 sample then ⌊clamp1 sample * 32767⌋ else ⌈clamp1 sample * 32768⌉

/-- Options relevant to `Player::export_to_file` / `AudioExporter::export_audio`
(`ExportOptions` from audio_exporter.hpp; the progress callback is optional,
mirroring the `if (options.progress_callback)` null test). -/
structure PExportOptions where
  format : ExportFormat
  output_path : String
  sample_rate : ℕ
  channels : ℕ
  progress : Option (ℕ → ℕ → Bool)

/-- Oracle for the opaque collaborators of the export path: the module's
reported duration, the result of the k-th `read_interleaved_stereo` call
(`none` models a thrown C++ exception), the module's time position after the
k-th successful render, and the outcome of the container-level encoder once
it is actually invoked (file I/O, LAME, FLAC). -/
structure ExportEnv where
  duration : ℚ
  render : ℕ → ℕ → Option ℕ
  posAfter : ℕ → ℚ
  encodeOk : Bool
  encodeErr : String

/-- `AudioExporter::export_audio`: the guard sequence at the top of the
function — empty buffer, empty path, unsupported format — followed by the
dispatch to the per-format encoder (modelled by the environment oracle). -/
def export_audio (haveLame haveFlac : Bool) (env : ExportEnv)
    (opts : PExportOptions) (audioLen : ℕ) : Bool × String :=
  if audioLen = 0 then (false, "No audio data to export")
  else if opts.output_path = "" then (false, "Output path not specified")
  else if ¬ (is_format_supported haveLame haveFlac opts.format) then
    (false, "Format not supported (missing library)")
  else (env.encodeOk, env.encodeErr)

/-- Exit status of the render loop inside `Player::export_to_file`:
a decoder exception, a cancellation via the progress callback, normal
completion, or divergence (fuel exhaustion, which a sufficient fuel value
rules out whenever `channels ≥ 1`). -/
inductive ExportLoopExit
  | thrown (rendered : ℕ) (pos : ℚ)
  | cancelled (rendered : ℕ) (pos : ℚ)
  | done (rendered : ℕ) (pos : ℚ)
  | fuelOut (rendered : ℕ) (pos : ℚ)
deriving DecidableEq

/-- The `while (samples_rendered < total_samples)` render loop of
`Player::export_to_file` (player.cpp lines 779-827): request
`min(4096*ch, total-rendered)/ch` frames, break on a zero return, accumulate
`frames_read * channels` samples, then poll the optional progress callback. -/
def export_loop (render : ℕ → ℕ → Option ℕ) (posAfter : ℕ → ℚ)
    (progress : Option (ℕ → ℕ → Bool)) (ch total : ℕ) :
    ℕ → ℕ → ℕ → ℚ → ExportLoopExit
  | 0, _, rendered, pos => ExportLoopExit.fuelOut rendered pos
  | fuel + 1, k, rendered, pos =>
    if rendered < total then
      let frames_to_read := min (4096 * ch) (total - rendered) / ch
      match render k frames_to_read with
      | none => ExportLoopExit.thrown rendered pos
      | some f =>
        if f = 0 then ExportLoopExit.done rendered pos
        else
          let rendered' := rendered + f * ch
          let pos' := posAfter k
          match progress with
          | none => export_loop render posAfter progress ch total fuel (k + 1) rendered' pos'
          | some cb =>
            if cb rendered' total then
              export_loop render posAfter progress ch total fuel (k + 1) rendered' pos'
            else ExportLoopExit.cancelled rendered' pos'
    else ExportLoopExit.done rendered pos

/-- Observable outcome of `Player::export_to_file`: the returned Boolean, the
`error_message` out-parameter, the module's time position on exit, the
`paused_` flag on exit, and how many samples the render loop produced. -/
structure ExportOutcome where
  success : Bool
  errorMessage : String
  finalPos : ℚ
  finalPaused : Bool
  samplesRendered : ℕ
deriving DecidableEq

/-- `Player::export_to_file` (player.cpp lines 749-848).  `running`/`paused`
are the engine flags at entry and `pos0` the module position at entry.
`none` models the divergence that C++ exhibits when `channels = 0` (the loop
can no longer make progress).  On the exception path (`catch`) neither the
module position nor the pause flag is restored, exactly as in the source. -/
def export_to_file (haveLame haveFlac : Bool) (opts : PExportOptions)
    (env : ExportEnv) (running paused : Bool) (pos0 : ℚ) :
    Option ExportOutcome :=
  let wasPlaying := running && !paused
  let paused1 := if wasPlaying then true else paused
  let saved := pos0
  let total := (⌊env.duration * opts.sample_rate * opts.channels⌋).toNat
  match export_loop env.render env.posAfter opts.progress opts.channels total
      (total + 1) 0 0 0 with
  | ExportLoopExit.fuelOut _ _ => none
  | ExportLoopExit.thrown r p =>
    some { success := false, errorMessage := "Export failed",
           finalPos := p, finalPaused := paused1, samplesRendered := r }
  | ExportLoopExit.cancelled r _ =>
    some { success := false, errorMessage := "Export cancelled by user",
           finalPos := saved,
           finalPaused := if wasPlaying then false else paused1,
           samplesRendered := r }
  | ExportLoopExit.done r _ =>
    let res := export_audio haveLame haveFlac env opts r
    some { success := res.1, errorMessage := res.2,
           finalPos := saved,
           finalPaused := if wasPlaying then false else paused1,
           samplesRendered := r }

/-! ## Module layout and seek arithmetic (player.cpp lines 270-387)

The decoder's order/pattern tables are opaque queries on the libopenmpt
module; they are modelled as arbitrary functions.  A negative
`orderPattern` value is an invalid pattern, matching the
`pattern_index < 0` checks in the source. -/

/-- The module queries used by the seek code: `get_num_orders`,
`get_order_pattern`, `get_pattern_num_rows`. -/
structure ModuleLayout where
  numOrders : ℤ
  orderPattern : ℤ → ℤ
  patternRows : ℤ → ℤ

/-- Row count of the pattern placed at order `o`. -/
def rowsAt (m : ModuleLayout) (o : ℤ) : ℤ := m.patternRows (m.orderPattern o)

/-- The `advance_forward` lambda of `Player::jump_rows` (player.cpp lines
309-340), including the final clamp to the last order's last row.  The
source's local `rows_left` is inlined. -/
def advance_forward (m : ModuleLayout) (ord row remaining : ℤ) : ℤ × ℤ :=
  if h : 0 < remaining ∧ ord < m.numOrders then
    if m.orderPattern ord < 0 then
      advance_forward m (ord + 1) 0 remaining
    else if m.patternRows (m.orderPattern ord) ≤ 0 then
      advance_forward m (ord + 1) 0 remaining
    else if remaining ≤ m.patternRows (m.orderPattern ord) - row - 1 then
      (ord, row + remaining)
    else
      advance_forward m (ord + 1) 0
        (remaining - (m.patternRows (m.orderPattern ord) - row - 1) - 1)
  else if m.numOrders ≤ ord then
    (m.numOrders - 1,
     max 0 ((if 0 ≤ m.orderPattern (m.numOrders - 1) then
         m.patternRows (m.orderPattern (m.numOrders - 1)) else 0) - 1))
  else (ord, row)
termination_by (m.numOrders - ord).toNat
decreasing_by all_goals omega

/-- The `advance_backward` lambda of `Player::jump_rows` (player.cpp lines
342-368), clamping at order 0 / row 0.  The source's locals `step` (which is
0 when the current row is 0), `pattern_index` and `pattern_rows` are
inlined. -/
def advance_backward (m : ModuleLayout) (ord row remaining : ℤ) : ℤ × ℤ :=
  if h : 0 < remaining ∧ 0 ≤ ord then
    if 0 < row ∧ remaining - min row remaining = 0 then
      (ord, row - min row remaining)
    else if ord - 1 < 0 then (0, 0)
    else if (if 0 ≤ m.orderPattern (ord - 1) then
        m.patternRows (m.orderPattern (ord - 1)) else 0) ≤ 0 then
      advance_backward m (ord - 1) 0
        (remaining - (if 0 < row then min row remaining else 0))
    else
      advance_backward m (ord - 1)
        ((if 0 ≤ m.orderPattern (ord - 1) then
            m.patternRows (m.orderPattern (ord - 1)) else 0) - 1)
        (remaining - (if 0 < row then min row remaining else 0) - 1)
  else (ord, row)
termination_by (ord + 1).toNat
decreasing_by all_goals omega

/-- `AudioEffect` from audio_effects.hpp. -/
inductive AudioEffect
  | None
  | BassBoost
  | Echo
  | Reverb
  | Flanger
  | Phaser
  | Chorus
deriving DecidableEq

/-- The engine-side state touched by the control operations of `Player`:
decoder position, the `finished_`, `paused_`, `running_`, `stop_requested_`
flags, the volume and the selected effect. -/
structure PlayerState where
  curOrder : ℤ
  curRow : ℤ
  finished : Bool
  paused : Bool
  running : Bool
  stopRequested : Bool
  volume : ℚ
  effect : AudioEffect
deriving DecidableEq

/-- `Player::jump_to_order` (player.cpp lines 270-285): clamp the target
order, seek to its row 0 and clear `finished`. -/
def jump_to_order (m : ModuleLayout) (s : PlayerState) (delta : ℤ) : PlayerState :=
  { s with curOrder := clampZ (s.curOrder + delta) 0 (m.numOrders - 1),
           curRow := 0, finished := false }

/-- `Player::jump_rows` (player.cpp lines 287-387): early return on a zero
delta or an empty order list (both leave `finished` untouched), otherwise
walk forward or backward and clear `finished`. -/
def jump_rows (m : ModuleLayout) (s : PlayerState) (deltaRows : ℤ) : PlayerState :=
  if deltaRows = 0 then s
  else if m.numOrders ≤ 0 then s
  else if 0 < deltaRows then
    { s with curOrder := (advance_forward m s.curOrder s.curRow deltaRows).1,
             curRow := (advance_forward m s.curOrder s.curRow deltaRows).2,
             finished := false }
  else
    { s with curOrder := (advance_backward m s.curOrder s.curRow (-deltaRows)).1,
             curRow := (advance_backward m s.curOrder s.curRow (-deltaRows)).2,
             finished := false }

/-- The public control operations of `Player` that mutate engine state. -/
inductive PlayerOp
  | togglePause
  | setVolume (v : ℚ)
  | setEffect (e : AudioEffect)
  | jumpToOrder (delta : ℤ)
  | jumpRows (deltaRows : ℤ)
  | stop
  | start

/-- Effect of each control operation on the engine state, from the
corresponding member functions in player.cpp.  `stop` flips
`stop_requested_` and un-pauses before joining; `start` is a no-op when
already running; neither touches `finished_`. -/
def apply_op (m : ModuleLayout) (s : PlayerState) : PlayerOp → PlayerState
  | PlayerOp.togglePause => { s with paused := !s.paused }
  | PlayerOp.setVolume v => { s with volume := clampQ v 0 1 }
  | PlayerOp.setEffect e => { s with effect := e }
  | PlayerOp.jumpToOrder d => jump_to_order m s d
  | PlayerOp.jumpRows d => jump_rows m s d
  | PlayerOp.stop =>
    if s.running then
      { s with stopRequested := true, paused := false, running := false }
    else s
  | PlayerOp.start =>
    if s.running then s else { s with running := true, stopRequested := false }

/-- The end-of-module check of `Player::playback_loop` (player.cpp lines
459-470): a render result of zero or fewer frames sets `finished` and breaks
out of the loop.  The Boolean is true when the loop continues. -/
def playback_render_step (s : PlayerState) (framesRendered : ℤ) :
    PlayerState × Bool :=
  if framesRendered ≤ 0 then ({ s with finished := true }, false) else (s, true)

/-- Sum of the row counts of the patterns at orders `a ≤ o < b`; the
flattened-row coordinate used to reason about the seek walks. -/
def sumRows (m : ModuleLayout) (a b : ℤ) : ℤ :=
  ∑ o ∈ Finset.Ico a b, rowsAt m o

/-- Every order in `[lo, hi]` carries a valid pattern with at least one row
(the walks cross no invalid or zero-length pattern there). -/
def validOn (m : ModuleLayout) (lo hi : ℤ) : Prop :=
  ∀ o, lo ≤ o → o ≤ hi → 0 ≤ m.orderPattern o ∧ 1 ≤ rowsAt m o

/-! ## Waveform sampler (player.cpp lines 723-747) -/

/-- The two oscilloscope rings (`waveform_buffer_left_/right_`, size
`kWaveformSize = 512`) and the shared write cursor. -/
structure WaveformState where
  left : ℕ → ℚ
  right : ℕ → ℚ
  pos : ℕ

/-- Body of the fill loop of `Player::update_waveform`: one iteration per
decimated stereo pair — wrap the cursor to 0 when it has reached the end,
store the pair, and break once the cursor reaches the end again. -/
def wf_write : WaveformState → List (ℚ × ℚ) → WaveformState
  | st, [] => st
  | st, pr :: rest =>
    let p := if 512 ≤ st.pos then 0 else st.pos
    let st' : WaveformState :=
      { left := Function.update st.left p pr.1,
        right := Function.update st.right p pr.2,
        pos := p + 1 }
    if 512 ≤ p + 1 then st' else wf_write st' rest

/-- The decimated stereo pairs `(data[i], data[i+1])` visited by
`for (i = 0; i < S; i += d*2)`: indices `i = 2*d*k` for `k < ⌈S / (2*d)⌉`. -/
def wf_pairs (data : ℕ → ℚ) (S d : ℕ) : List (ℚ × ℚ) :=
  (List.range ((S + (2 * d - 1)) / (2 * d))).map
    (fun k => (data (2 * d * k), data (2 * d * k + 1)))

/-- `Player::update_waveform` on a buffer of `S` interleaved samples:
decimation `max(1, S / (kWaveformSize * 4))`, then the fill loop. -/
def update_waveform (data : ℕ → ℚ) (S : ℕ) (st : WaveformState) : WaveformState :=
  wf_write st (wf_pairs data S (max 1 (S / (512 * 4))))

/-- Modelled from the spec: the same fill loop but with the decimation
formula the specification states, `max(1, (S/2) / (4 × ringLength))` —
for comparison against `update_waveform`, which embeds the source. -/
def update_waveform_claimed (data : ℕ → ℚ) (S : ℕ) (st : WaveformState) :
    WaveformState :=
  wf_write st (wf_pairs data S (max 1 ((S / 2) / (4 * 512))))

/-! ## AudioEffects (src/src/audio_effects.cpp)

Each effect's persistent state and per-frame recurrence.  Buffers hold
interleaved stereo frames, modelled as lists of pairs.  The decimal float
literals of the source are read as exact rationals.  The LFO `std::sin`
evaluations and the float-derived delay constants of Reverb / Flanger /
Chorus enter as oracle parameters (universally quantified in every
theorem), since binary floating point is not modelled. -/

/-- Run a per-frame step function over an interleaved buffer
(the `for (i = 0; i < frame_count; ++i)` loops of audio_effects.cpp). -/
def run_frames {σ : Type} (step : σ → (ℚ × ℚ) → (ℚ × ℚ) × σ) :
    List (ℚ × ℚ) → σ → List (ℚ × ℚ) × σ
  | [], st => ([], st)
  | f :: rest, st =>
    let r := step st f
    let rr := run_frames step rest r.2
    (r.1 :: rr.1, rr.2)

/-- As `run_frames`, threading the frame index to the step function (for the
effects whose step consults an LFO oracle). -/
def run_frames_idx {σ : Type} (step : ℕ → σ → (ℚ × ℚ) → (ℚ × ℚ) × σ) :
    ℕ → List (ℚ × ℚ) → σ → List (ℚ × ℚ) × σ
  | _, [], st => ([], st)
  | i, f :: rest, st =>
    let r := step i st f
    let rr := run_frames_idx step (i + 1) rest r.2
    (r.1 :: rr.1, rr.2)

/-- One frame of `AudioEffects::apply_bass_boost`: state is the pair of
one-pole low-pass accumulators (α = 0.15, gain = 1.8). -/
def bass_step (st : ℚ × ℚ) (inp : ℚ × ℚ) : (ℚ × ℚ) × (ℚ × ℚ) :=
  let lpL := st.1 + (3/20) * (inp.1 - st.1)
  let outL := clamp1 (lpL * (9/5) + inp.1 * (1 - (9/5) * (1/2)))
  let lpR := st.2 + (3/20) * (inp.2 - st.2)
  let outR := clamp1 (lpR * (9/5) + inp.2 * (1 - (9/5) * (1/2)))
  ((outL, outR), (lpL, lpR))

/-- `echo_buffer_left_/right_` (capacity `kEchoBufferSize = 48000`) and
`echo_write_pos_`. -/
@[ext]
structure EchoState where
  bufL : ℕ → ℚ
  bufR : ℕ → ℚ
  pos : ℕ

/-- One frame of `AudioEffects::apply_echo` (feedback = 0.4, mix = 0.3):
read the delayed pair, mix it into the output, store input + feedback
(clamped) at the write cursor, advance the cursor modulo the capacity. -/
def echo_step (delaySamples : ℕ) (st : EchoState) (inp : ℚ × ℚ) :
    (ℚ × ℚ) × EchoState :=
  let readPos := ring_read 48000 st.pos delaySamples
  let dL := st.bufL readPos
  let dR := st.bufR readPos
  ((clamp1 (inp.1 * (1 - 3/10) + dL * (3/10)),
    clamp1 (inp.2 * (1 - 3/10) + dR * (3/10))),
   { bufL := Function.update st.bufL st.pos (clamp1 (inp.1 + dL * (2/5))),
     bufR := Function.update st.bufR st.pos (clamp1 (inp.2 + dR * (2/5))),
     pos := (st.pos + 1) % 48000 })

/-- `AudioEffects::apply_echo`: the delay is
`static_cast<std::size_t>(0.25f * sample_rate)`, exactly `sample_rate / 4`
(0.25 is a power of two, hence exact in float). -/
def apply_echo (sampleRate : ℕ) (buf : List (ℚ × ℚ)) (st : EchoState) :
    List (ℚ × ℚ) × EchoState :=
  run_frames (echo_step (sampleRate / 4)) buf st

/-- The zero-filled construction state of the echo delay line. -/
def initEchoState : EchoState :=
  { bufL := fun _ => 0, bufR := fun _ => 0, pos := 0 }

/-- Ghost state of the echo delay line after `m` frames of a sustained
constant input `c` from a fresh state: the first `m` slots hold `c`, the
rest still hold 0, and the write cursor sits at `m`. -/
def echoStateAt (c : ℚ) (m : ℕ) : EchoState :=
  { bufL := fun i => if i < m then c else 0,
    bufR := fun i => if i < m then c else 0,
    pos := m }

/-- `reverb_buffer_left_/right_` (capacity `kReverbBufferSize = 96000`) and
`reverb_write_pos_`. -/
structure ReverbState where
  bufL : ℕ → ℚ
  bufR : ℕ → ℚ
  pos : ℕ

/-- One frame of `AudioEffects::apply_reverb` (decay = 0.5, mix = 0.35):
four comb taps are summed (each scaled by the decay), scaled by 0.25, fed
back into the shared buffer and mixed into the output.  The four tap delays
(`0.029/0.037/0.041/0.043 × sample_rate`, truncated floats) are oracle
parameters. -/
def reverb_step (t1 t2 t3 t4 : ℕ) (st : ReverbState) (inp : ℚ × ℚ) :
    (ℚ × ℚ) × ReverbState :=
  let rL := (st.bufL (ring_read 96000 st.pos t1) * (1/2)
    + st.bufL (ring_read 96000 st.pos t2) * (1/2)
    + st.bufL (ring_read 96000 st.pos t3) * (1/2)
    + st.bufL (ring_read 96000 st.pos t4) * (1/2)) * (1/4)
  let rR := (st.bufR (ring_read 96000 st.pos t1) * (1/2)
    + st.bufR (ring_read 96000 st.pos t2) * (1/2)
    + st.bufR (ring_read 96000 st.pos t3) * (1/2)
    + st.bufR (ring_read 96000 st.pos t4) * (1/2)) * (1/4)
  ((clamp1 (inp.1 * (1 - 7/20) + rL * (7/20)),
    clamp1 (inp.2 * (1 - 7/20) + rR * (7/20))),
   { bufL := Function.update st.bufL st.pos (inp.1 + rL * (1/2)),
     bufR := Function.update st.bufR st.pos (inp.2 + rR * (1/2)),
     pos := (st.pos + 1) % 96000 })

/-- `flanger_buffer_left_/right_` (capacity `kFlangerBufferSize = 4800`) and
`flanger_write_pos_`. -/
structure FlangerState where
  bufL : ℕ → ℚ
  bufR : ℕ → ℚ
  pos : ℕ

/-- One frame of `AudioEffects::apply_flanger` (feedback = 0.6, mix = 0.5).
`delayRaw` is the LFO-modulated delay before the `std::min` clamp to
capacity − 1 (base 2 ms + depth, truncated floats — oracle). -/
def flanger_step (delayRaw : ℕ) (st : FlangerState) (inp : ℚ × ℚ) :
    (ℚ × ℚ) × FlangerState :=
  let delaySamples := min delayRaw (4800 - 1)
  let readPos := ring_read 4800 st.pos delaySamples
  let dL := st.bufL readPos
  let dR := st.bufR readPos
  ((clamp1 (inp.1 * (1 - 1/2) + dL * (1/2)),
    clamp1 (inp.2 * (1 - 1/2) + dR * (1/2))),
   { bufL := Function.update st.bufL st.pos (inp.1 + dL * (3/5)),
     bufR := Function.update st.bufR st.pos (inp.2 + dR * (3/5)),
     pos := (st.pos + 1) % 4800 })

/-- The 4-stage all-pass states `phaser_state_left_/right_` of the phaser. -/
structure PhaserState where
  s0L : ℚ
  s1L : ℚ
  s2L : ℚ
  s3L : ℚ
  s0R : ℚ
  s1R : ℚ
  s2R : ℚ
  s3R : ℚ
deriving DecidableEq

/-- One frame of `AudioEffects::apply_phaser` (feedback = 0.7, mix = 0.5):
four chained all-pass stages per channel with the LFO-driven coefficient
`coeff` (oracle), then the output mix `in*(1-mix) + x*mix + x*feedback*0.3`. -/
def phaser_step (coeff : ℚ) (st : PhaserState) (inp : ℚ × ℚ) :
    (ℚ × ℚ) × PhaserState :=
  let o0L := -inp.1 + st.s0L
  let o1L := -o0L + st.s1L
  let o2L := -o1L + st.s2L
  let o3L := -o2L + st.s3L
  let o0R := -inp.2 + st.s0R
  let o1R := -o0R + st.s1R
  let o2R := -o1R + st.s2R
  let o3R := -o2R + st.s3R
  ((clamp1 (inp.1 * (1 - 1/2) + o3L * (1/2) + o3L * (7/10) * (3/10)),
    clamp1 (inp.2 * (1 - 1/2) + o3R * (1/2) + o3R * (7/10) * (3/10))),
   { s0L := inp.1 + o0L * coeff, s1L := o0L + o1L * coeff,
     s2L := o1L + o2L * coeff, s3L := o2L + o3L * coeff,
     s0R := inp.2 + o0R * coeff, s1R := o0R + o1R * coeff,
     s2R := o1R + o2R * coeff, s3R := o2R + o3R * coeff })

/-- `chorus_buffer_left_/right_` (capacity `kChorusBufferSize = 9600`) and
`chorus_write_pos_`. -/
structure ChorusState where
  bufL : ℕ → ℚ
  bufR : ℕ → ℚ
  pos : ℕ

/-- One frame of `AudioEffects::apply_chorus` (mix = 0.4): two delay taps
(each clamped to capacity − 1; pre-clamp values are LFO oracles), the
delayed voices averaged, the dry input stored at the write cursor. -/
def chorus_step (d1Raw d2Raw : ℕ) (st : ChorusState) (inp : ℚ × ℚ) :
    (ℚ × ℚ) × ChorusState :=
  let r1 := ring_read 9600 st.pos (min d1Raw (9600 - 1))
  let r2 := ring_read 9600 st.pos (min d2Raw (9600 - 1))
  let chorusedL := (st.bufL r1 + st.bufL r2) * (1/2)
  let chorusedR := (st.bufR r1 + st.bufR r2) * (1/2)
  ((clamp1 (inp.1 * (1 - 2/5) + chorusedL * (2/5)),
    clamp1 (inp.2 * (1 - 2/5) + chorusedR * (2/5))),
   { bufL := Function.update st.bufL st.pos inp.1,
     bufR := Function.update st.bufR st.pos inp.2,
     pos := (st.pos + 1) % 9600 })

/-- The complete persistent state of `AudioEffects`. -/
structure AudioEffectsState where
  bassLpL : ℚ
  bassLpR : ℚ
  echo : EchoState
  reverb : ReverbState
  flanger : FlangerState
  phaser : PhaserState
  chorus : ChorusState

/-- Oracles for the float-derived quantities: the four reverb tap delays and
the per-frame LFO-modulated delays/coefficients of Flanger, Phaser, Chorus. -/
structure EffectOracles where
  reverbTap1 : ℕ
  reverbTap2 : ℕ
  reverbTap3 : ℕ
  reverbTap4 : ℕ
  flangerDelay : ℕ → ℕ
  phaserCoeff : ℕ → ℚ
  chorusDelay1 : ℕ → ℕ
  chorusDelay2 : ℕ → ℕ

/-- `AudioEffects::apply_effects`: dispatch on the selected effect;
`AudioEffect::None` returns immediately, touching neither buffer nor state. -/
def apply_effects (sampleRate : ℕ) (osc : EffectOracles) (effect : AudioEffect)
    (buf : List (ℚ × ℚ)) (st : AudioEffectsState) :
    List (ℚ × ℚ) × AudioEffectsState :=
  match effect with
  | AudioEffect.None => (buf, st)
  | AudioEffect.BassBoost =>
    let r := run_frames bass_step buf (st.bassLpL, st.bassLpR)
    (r.1, { st with bassLpL := r.2.1, bassLpR := r.2.2 })
  | AudioEffect.Echo =>
    let r := apply_echo sampleRate buf st.echo
    (r.1, { st with echo := r.2 })
  | AudioEffect.Reverb =>
    let r := run_frames
      (reverb_step osc.reverbTap1 osc.reverbTap2 osc.reverbTap3 osc.reverbTap4)
      buf st.reverb
    (r.1, { st with reverb := r.2 })
  | AudioEffect.Flanger =>
    let r := run_frames_idx (fun i => flanger_step (osc.flangerDelay i)) 0
      buf st.flanger
    (r.1, { st with flanger := r.2 })
  | AudioEffect.Phaser =>
    let r := run_frames_idx (fun i => phaser_step (osc.phaserCoeff i)) 0
      buf st.phaser
    (r.1, { st with phaser := r.2 })
  | AudioEffect.Chorus =>
    let r := run_frames_idx
      (fun i => chorus_step (osc.chorusDelay1 i) (osc.chorusDelay2 i)) 0
      buf st.chorus
    (r.1, { st with chorus := r.2 })

/-- The zero-filled construction state of `AudioEffects` (all buffers zero,
all cursors 0). -/
def initAudioEffectsState : AudioEffectsState :=
  { bassLpL := 0, bassLpR := 0,
    echo := { bufL := fun _ => 0, bufR := fun _ => 0, pos := 0 },
    reverb := { bufL := fun _ => 0, bufR := fun _ => 0, pos := 0 },
    flanger := { bufL := fun _ => 0, bufR := fun _ => 0, pos := 0 },
    phaser := { s0L := 0, s1L := 0, s2L := 0, s3L := 0,
                s0R := 0, s1R := 0, s2R := 0, s3R := 0 },
    chorus := { bufL := fun _ => 0, bufR := fun _ => 0, pos := 0 } }

/-- The write-cursor bounds invariant of the four ring-buffered effects. -/
def ringPosInRange (st : AudioEffectsState) : Prop :=
  st.echo.pos < 48000 ∧ st.reverb.pos < 96000 ∧
  st.flanger.pos < 4800 ∧ st.chorus.pos < 9600

/-! ## Concrete fixtures (used by witnesses and counterexamples) -/

/-- A small module: 4 orders, order o holding pattern o, 4 rows each. -/
def demoLayout : ModuleLayout :=
  { numOrders := 4, orderPattern := fun o => o, patternRows := fun _ => 4 }

/-- An engine state that has reached the end of the module
(`finished = true`) while the player object is still running. -/
def demoFinishedState : PlayerState :=
  { curOrder := 3, curRow := 3, finished := true, paused := false,
    running := true, stopRequested := false, volume := 1,
    effect := AudioEffect.None }

/-- A fresh engine state at the start of the module. -/
def demoState : PlayerState :=
  { curOrder := 0, curRow := 0, finished := false, paused := false,
    running := false, stopRequested := false, volume := 1,
    effect := AudioEffect.None }

/-- Export request for an MP3 in a build without LAME (one channel and a
one-second, one-hertz module keep the arithmetic small). -/
def c1Opts : PExportOptions :=
  { format := ExportFormat.MP3, output_path := "o", sample_rate := 1,
    channels := 1, progress := none }

/-- A decoder that renders one frame per call. -/
def c1Env : ExportEnv :=
  { duration := 1, render := fun _ _ => some 1, posAfter := fun _ => 0,
    encodeOk := true, encodeErr := "" }

/-- The outcome `export_to_file` produces for `c1Opts`/`c1Env`. -/
def c1Out : ExportOutcome :=
  { success := false, errorMessage := "Format not supported (missing library)",
    finalPos := 0, finalPaused := false, samplesRendered := 1 }

/-- A WAV export request (always-supported format). -/
def c7Opts : PExportOptions :=
  { format := ExportFormat.WAV, output_path := "o", sample_rate := 1,
    channels := 1, progress := none }

/-- A decoder whose render call throws on first use. -/
def c7ThrowEnv : ExportEnv :=
  { duration := 1, render := fun _ _ => none, posAfter := fun _ => 0,
    encodeOk := true, encodeErr := "" }

/-- The outcome of the exception exit: position left at 0 (not restored),
engine left paused (not restored). -/
def c7ThrownOut : ExportOutcome :=
  { success := false, errorMessage := "Export failed", finalPos := 0,
    finalPaused := true, samplesRendered := 0 }

/-- A decoder that immediately reports end of module (renders 0 frames). -/
def c7OkEnv : ExportEnv :=
  { duration := 1, render := fun _ _ => some 0, posAfter := fun _ => 3,
    encodeOk := true, encodeErr := "" }

/-- The outcome of that run: a failure exit ("No audio data to export")
with position and pause state restored. -/
def c7OkOut : ExportOutcome :=
  { success := false, errorMessage := "No audio data to export", finalPos := 5,
    finalPaused := false, samplesRendered := 0 }

/-- Sample data whose value records its buffer index. -/
def wfDemoData : ℕ → ℚ := fun i => (i : ℚ)

/-- A waveform state two slots short of a full ring. -/
def wfStart510 : WaveformState :=
  { left := fun _ => 0, right := fun _ => 0, pos := 510 }

/-- The zero-filled construction state of the waveform rings. -/
def wfInit : WaveformState :=
  { left := fun _ => 0, right := fun _ => 0, pos := 0 }

/-- Plausible LFO/tap oracle values for a 48 kHz build (the exact values are
irrelevant to the theorems; every theorem quantifies over the oracles). -/
def demoOracles : EffectOracles :=
  { reverbTap1 := 1392, reverbTap2 := 1776, reverbTap3 := 1968,
    reverbTap4 := 2064, flangerDelay := fun _ => 96,
    phaserCoeff := fun _ => 1/2, chorusDelay1 := fun _ => 960,
    chorusDelay2 := fun _ => 960 }

/-! ## Basic lemmas -/

theorem clampZ_mem (v lo hi : ℤ) (h : lo ≤ hi) :
    lo ≤ clampZ v lo hi ∧ clampZ v lo hi ≤ hi := by
  unfold clampZ; split_ifs with h1 h2 <;> omega

theorem clamp1_mem (v : ℚ) : -1 ≤ clamp1 v ∧ clamp1 v ≤ 1 := by
  unfold clamp1; split_ifs with h1 h2 <;> constructor <;> linarith

theorem clamp1_of_mem {v : ℚ} (h1 : -1 ≤ v) (h2 : v ≤ 1) : clamp1 v = v := by
  unfold clamp1; split_ifs with ha hb <;> first | rfl | linarith

theorem usub_eq_sub {a b : ℕ} (hba : b ≤ a) (ha : (a : ℤ) < 2 ^ 64) :
    usub a b = a - b := by
  unfold usub
  rw [Int.emod_eq_of_lt (by omega) (by omega)]
  omega

theorem ring_read_lt (cap w d : ℕ) (hcap : 0 < cap) : ring_read cap w d < cap :=
  Nat.mod_lt _ hcap

/-- C10: the sample-to-PCM conversion used by every export encoder clamps to
`[-1, 1]` first and then scales non-negative values by 32767 and negative
values by 32768, so the result always lies in `[-32768, 32767]`, and the
inputs `1.0` and `-1.0` map exactly to `32767` and `-32768`. -/
theorem float_to_int16_range_and_endpoints :
    (∀ q : ℚ, -32768 ≤ float_to_int16 q ∧ float_to_int16 q ≤ 32767) ∧
    float_to_int16 1 = 32767 ∧ float_to_int16 (-1) = -32768 := by
  have hc1 : clamp1 1 = 1 := clamp1_of_mem (by norm_num) (by norm_num)
  have hc2 : clamp1 (-1) = -1 := clamp1_of_mem (by norm_num) (by norm_num)
  refine ⟨fun q => ?_,
    by rw [float_to_int16, hc1]; norm_num,
    by
      rw [float_to_int16, hc2]
      norm_num
      exact_mod_cast Int.ceil_intCast (α := ℚ) (-32768)⟩
  have h := clamp1_mem q
  rw [float_to_int16]
  split_ifs with h0
  · constructor
    · have h1 : (0:ℤ) ≤ ⌊clamp1 q * 32767⌋ :=
        Int.le_floor.mpr (by push_cast; nlinarith)
      omega
    · have h2 : ⌊clamp1 q * 32767⌋ ≤ ⌊(32767:ℚ)⌋ :=
        Int.floor_le_floor (by nlinarith [h.2])
      simpa using h2
  · constructor
    · have h1 : (-32768:ℚ) ≤ clamp1 q * 32768 := by nlinarith [h.1]
      have h2 : ((-32768 : ℤ) : ℚ) ≤ (⌈clamp1 q * 32768⌉ : ℚ) := by
        push_cast
        linarith [Int.le_ceil (clamp1 q * 32768)]
      exact_mod_cast h2
    · have h1 : ⌈clamp1 q * 32768⌉ ≤ 0 := Int.ceil_le.mpr (by push_cast; nlinarith)
      omega

/-- C9: applying the `None` effect returns the buffer unchanged and leaves
every per-effect internal state (ring buffers, cursors, all-pass taps,
low-pass accumulators) untouched. -/
theorem apply_effects_none_noop (sampleRate : ℕ) (osc : EffectOracles)
    (buf : List (ℚ × ℚ)) (st : AudioEffectsState) :
    apply_effects sampleRate osc AudioEffect.None buf st = (buf, st) := rfl

/-- C5: for every delta, `jump_to_order` targets
`clamp(current_order + delta, 0, total_orders - 1)` at row 0, so the
resulting order lies in `[0, total_orders - 1]`, and it clears `finished`
(stated for a non-empty order list, as required by `std::clamp`). -/
theorem jump_to_order_clamped_row0_clears_finished
    (m : ModuleLayout) (s : PlayerState) (delta : ℤ) (h : 1 ≤ m.numOrders) :
    (jump_to_order m s delta).curOrder
        = clampZ (s.curOrder + delta) 0 (m.numOrders - 1) ∧
    0 ≤ (jump_to_order m s delta).curOrder ∧
    (jump_to_order m s delta).curOrder ≤ m.numOrders - 1 ∧
    (jump_to_order m s delta).curRow = 0 ∧
    (jump_to_order m s delta).finished = false := by
  have hc := clampZ_mem (s.curOrder + delta) 0 (m.numOrders - 1) (by omega)
  exact ⟨rfl, hc.1, hc.2, rfl, rfl⟩

/-- Witness for C5 at a concrete input: 4 orders, a jump of +10 from order 0
clamps to order 3, row 0, with `finished` cleared. -/
theorem jump_to_order_clamped_witness :
    (1 : ℤ) ≤ demoLayout.numOrders ∧
    ((jump_to_order demoLayout demoState 10).curOrder
        = clampZ (demoState.curOrder + 10) 0 (demoLayout.numOrders - 1) ∧
      0 ≤ (jump_to_order demoLayout demoState 10).curOrder ∧
      (jump_to_order demoLayout demoState 10).curOrder
        ≤ demoLayout.numOrders - 1 ∧
      (jump_to_order demoLayout demoState 10).curRow = 0 ∧
      (jump_to_order demoLayout demoState 10).finished = false) :=
  ⟨by decide,
   jump_to_order_clamped_row0_clears_finished demoLayout demoState 10 (by decide)⟩

/-- C3 falsified on the code: after `finished` has become true,
`jump_to_order` — an operation other than a stop/start cycle — resets it to
false; and conversely a stop/start cycle does **not** reset it (it stays
true across `stop(); start()`). -/
theorem finished_reset_counterexample :
    demoFinishedState.finished = true ∧
    (apply_op demoLayout demoFinishedState (PlayerOp.jumpToOrder 0)).finished
      = false ∧
    (apply_op demoLayout (apply_op demoLayout demoFinishedState PlayerOp.stop)
        PlayerOp.start).finished = true := by
  refine ⟨rfl, rfl, ?_⟩
  simp [apply_op, demoFinishedState]

/-- C3 (amended): a render of zero or fewer frames sets `finished = true`
and terminates the playback loop; `finished` is then preserved by
`toggle_pause`, `set_volume`, `set_effect`, `stop` and `start` (a stop/start
cycle does not clear it), and is cleared exactly by the seek operations
`jump_to_order` and `jump_rows` (the latter only for a nonzero delta on a
non-empty order list). -/
theorem finished_terminal_until_seek
    (m : ModuleLayout) (s : PlayerState) (frames : ℤ) (v : ℚ)
    (e : AudioEffect) (d d2 : ℤ)
    (hframes : frames ≤ 0) (hd2 : d2 ≠ 0) (hord : 0 < m.numOrders) :
    (playback_render_step s frames).1.finished = true ∧
    (playback_render_step s frames).2 = false ∧
    (∀ s' : PlayerState,
      (apply_op m s' PlayerOp.togglePause).finished = s'.finished ∧
      (apply_op m s' (PlayerOp.setVolume v)).finished = s'.finished ∧
      (apply_op m s' (PlayerOp.setEffect e)).finished = s'.finished ∧
      (apply_op m s' PlayerOp.stop).finished = s'.finished ∧
      (apply_op m s' PlayerOp.start).finished = s'.finished) ∧
    (∀ s' : PlayerState,
      (apply_op m s' (PlayerOp.jumpToOrder d)).finished = false) ∧
    (∀ s' : PlayerState,
      (apply_op m s' (PlayerOp.jumpRows d2)).finished = false) := by
  refine ⟨by simp [playback_render_step, hframes],
    by simp [playback_render_step, hframes], fun s' => ?_, fun s' => rfl,
    fun s' => ?_⟩
  · refine ⟨rfl, rfl, rfl, ?_, ?_⟩ <;>
      (simp only [apply_op]; split_ifs <;> rfl)
  · simp only [apply_op, jump_rows, hd2, if_false]
    rw [if_neg (by omega)]
    split_ifs <;> rfl

/-- Witness for the amended C3 at concrete inputs (a zero-frame render, a
`jump_rows` delta of 1, the four-order demo module). -/
theorem finished_terminal_witness :
    ((0 : ℤ) ≤ 0 ∧ (1 : ℤ) ≠ 0 ∧ (0 : ℤ) < demoLayout.numOrders) ∧
    ((playback_render_step demoState 0).1.finished = true ∧
      (playback_render_step demoState 0).2 = false ∧
      (∀ s' : PlayerState,
        (apply_op demoLayout s' PlayerOp.togglePause).finished = s'.finished ∧
        (apply_op demoLayout s' (PlayerOp.setVolume (1/2))).finished
          = s'.finished ∧
        (apply_op demoLayout s' (PlayerOp.setEffect AudioEffect.Echo)).finished
          = s'.finished ∧
        (apply_op demoLayout s' PlayerOp.stop).finished = s'.finished ∧
        (apply_op demoLayout s' PlayerOp.start).finished = s'.finished) ∧
      (∀ s' : PlayerState,
        (apply_op demoLayout s' (PlayerOp.jumpToOrder 2)).finished = false) ∧
      (∀ s' : PlayerState,
        (apply_op demoLayout s' (PlayerOp.jumpRows 1)).finished = false)) :=
  ⟨⟨by decide, by decide, by decide⟩,
   finished_terminal_until_seek demoLayout demoState 0 (1/2) AudioEffect.Echo
     2 1 (by decide) (by decide) (by decide)⟩

/-- A property of the carried state preserved by every frame step is
preserved by the whole `run_frames` loop. -/
theorem run_frames_preserves {σ : Type} (P : σ → Prop)
    (step : σ → (ℚ × ℚ) → (ℚ × ℚ) × σ)
    (hstep : ∀ st f, P st → P ((step st f).2)) :
    ∀ (buf : List (ℚ × ℚ)) (st : σ), P st → P ((run_frames step buf st).2) := by
  intro buf
  induction buf with
  | nil => intro st h; simpa [run_frames] using h
  | cons f rest ih =>
    intro st h
    simp only [run_frames]
    exact ih _ (hstep _ _ h)

/-- Indexed variant of `run_frames_preserves`. -/
theorem run_frames_idx_preserves {σ : Type} (P : σ → Prop)
    (step : ℕ → σ → (ℚ × ℚ) → (ℚ × ℚ) × σ)
    (hstep : ∀ i st f, P st → P ((step i st f).2)) :
    ∀ (i : ℕ) (buf : List (ℚ × ℚ)) (st : σ), P st →
      P ((run_frames_idx step i buf st).2) := by
  intro i buf
  induction buf generalizing i with
  | nil => intro st h; simpa [run_frames_idx] using h
  | cons f rest ih =>
    intro st h
    simp only [run_frames_idx]
    exact ih _ _ (hstep _ _ _ h)

/-- C8: every ring-buffer index the effects use stays inside the fixed
capacity (echo 48000, reverb 96000, flanger 4800, chorus 9600): the write
cursors start in range, stay in range across any sequence of `apply_effects`
calls with arbitrary buffers, oracles and sample rates, and every read index
(computed by `ring_read`, i.e. `(pos + cap - delay) % cap` on `std::size_t`)
lies in `[0, cap)`; the write index is the in-range cursor itself. -/
theorem effects_ring_indices_in_range :
    ringPosInRange initAudioEffectsState ∧
    (∀ (sampleRate : ℕ) (osc : EffectOracles) (effect : AudioEffect)
      (buf : List (ℚ × ℚ)) (st : AudioEffectsState), ringPosInRange st →
      ringPosInRange (apply_effects sampleRate osc effect buf st).2) ∧
    (∀ w d, ring_read 48000 w d < 48000) ∧
    (∀ w d, ring_read 96000 w d < 96000) ∧
    (∀ w d, ring_read 4800 w d < 4800) ∧
    (∀ w d, ring_read 9600 w d < 9600) := by
  refine ⟨⟨by decide, by decide, by decide, by decide⟩, ?_,
    fun w d => ring_read_lt _ _ _ (by norm_num),
    fun w d => ring_read_lt _ _ _ (by norm_num),
    fun w d => ring_read_lt _ _ _ (by norm_num),
    fun w d => ring_read_lt _ _ _ (by norm_num)⟩
  intro sampleRate osc effect buf st h
  obtain ⟨h1, h2, h3, h4⟩ := h
  cases effect with
  | None => exact ⟨h1, h2, h3, h4⟩
  | BassBoost => exact ⟨h1, h2, h3, h4⟩
  | Phaser => exact ⟨h1, h2, h3, h4⟩
  | Echo =>
    refine ⟨?_, h2, h3, h4⟩
    exact run_frames_preserves (fun es => es.pos < 48000)
      (echo_step (sampleRate / 4))
      (fun st' f _ => by show (st'.pos + 1) % 48000 < 48000; omega) buf st.echo h1
  | Reverb =>
    refine ⟨h1, ?_, h3, h4⟩
    exact run_frames_preserves (fun es => es.pos < 96000)
      (reverb_step osc.reverbTap1 osc.reverbTap2 osc.reverbTap3 osc.reverbTap4)
      (fun st' f _ => by show (st'.pos + 1) % 96000 < 96000; omega) buf st.reverb h2
  | Flanger =>
    refine ⟨h1, h2, ?_, h4⟩
    exact run_frames_idx_preserves (fun es => es.pos < 4800)
      (fun i => flanger_step (osc.flangerDelay i))
      (fun i st' f _ => by show (st'.pos + 1) % 4800 < 4800; omega) 0 buf st.flanger h3
  | Chorus =>
    refine ⟨h1, h2, h3, ?_⟩
    exact run_frames_idx_preserves (fun es => es.pos < 9600)
      (fun i => chorus_step (osc.chorusDelay1 i) (osc.chorusDelay2 i))
      (fun i st' f _ => by show (st'.pos + 1) % 9600 < 9600; omega) 0 buf st.chorus h4

/-- Witness for C8 at a concrete input: one Echo frame applied to the
initial state keeps every cursor in range. -/
theorem effects_ring_indices_witness :
    ringPosInRange initAudioEffectsState ∧
    ringPosInRange (apply_effects 48000 demoOracles AudioEffect.Echo
      [(1/2, 1/2)] initAudioEffectsState).2 :=
  ⟨effects_ring_indices_in_range.1,
   effects_ring_indices_in_range.2.1 48000 demoOracles AudioEffect.Echo
     [(1/2, 1/2)] initAudioEffectsState effects_ring_indices_in_range.1⟩

/-- If no render call throws, the export render loop never exits through the
exception path. -/
theorem export_loop_no_throw
    (render : ℕ → ℕ → Option ℕ) (posAfter : ℕ → ℚ)
    (progress : Option (ℕ → ℕ → Bool)) (ch total : ℕ)
    (hren : ∀ k n, render k n ≠ none) :
    ∀ (fuel k rendered : ℕ) (pos : ℚ) (r' : ℕ) (p' : ℚ),
      export_loop render posAfter progress ch total fuel k rendered pos ≠
        ExportLoopExit.thrown r' p' := by
  intro fuel
  induction fuel with
  | zero => intro k rendered pos r' p'; simp [export_loop]
  | succ n ih =>
    intro k rendered pos r' p'
    by_cases hlt : rendered < total
    · simp only [export_loop, if_pos hlt]
      cases hr : render k (min (4096 * ch) (total - rendered) / ch) with
      | none => exact absurd hr (hren _ _)
      | some f =>
        by_cases hf : f = 0
        · simp [hf]
        · simp only [hf, if_neg hf]
          cases progress with
          | none => exact ih _ _ _ _ _
          | some cb =>
            by_cases hcb : cb (rendered + f * ch) total
            · simp only [if_pos hcb]; exact ih _ _ _ _ _
            · simp [if_neg hcb]
    · simp [export_loop, if_neg hlt]

/-- With no progress callback installed, the export render loop never exits
through the cancellation path. -/
theorem export_loop_no_cancel
    (render : ℕ → ℕ → Option ℕ) (posAfter : ℕ → ℚ) (ch total : ℕ) :
    ∀ (fuel k rendered : ℕ) (pos : ℚ) (r' : ℕ) (p' : ℚ),
      export_loop render posAfter none ch total fuel k rendered pos ≠
        ExportLoopExit.cancelled r' p' := by
  intro fuel
  induction fuel with
  | zero => intro k rendered pos r' p'; simp [export_loop]
  | succ n ih =>
    intro k rendered pos r' p'
    by_cases hlt : rendered < total
    · simp only [export_loop, if_pos hlt]
      cases hr : render k (min (4096 * ch) (total - rendered) / ch) with
      | none => simp
      | some f =>
        by_cases hf : f = 0
        · simp [hf]
        · simp only [hf, if_neg hf]
          exact ih _ _ _ _ _
    · simp [export_loop, if_neg hlt]

/-- C7 (amended): whenever no collaborator call throws, `export_to_file`
restores the module position and the previous pause state on every exit
path — success, encoder failure, and cancellation via the progress
callback.  (The exception exit does not restore; see the counterexample.) -/
theorem export_restores_position_and_pause
    (hl hf : Bool) (opts : PExportOptions) (env : ExportEnv)
    (running paused : Bool) (pos0 : ℚ) (out : ExportOutcome)
    (hnothrow : ∀ k n, env.render k n ≠ none)
    (hres : export_to_file hl hf opts env running paused pos0 = some out) :
    out.finalPos = pos0 ∧ out.finalPaused = paused := by
  simp only [export_to_file] at hres
  rcases hL : export_loop env.render env.posAfter opts.progress opts.channels
      (⌊env.duration * opts.sample_rate * opts.channels⌋.toNat)
      (⌊env.duration * opts.sample_rate * opts.channels⌋.toNat + 1) 0 0 0 with
    ⟨r, p⟩ | ⟨r, p⟩ | ⟨r, p⟩ | ⟨r, p⟩ <;> rw [hL] at hres
  · exact absurd hL (export_loop_no_throw _ _ _ _ _ hnothrow _ _ _ _ _ _)
  · obtain ⟨rfl⟩ : _ = out := Option.some_injective _ hres
    refine ⟨rfl, ?_⟩
    cases running <;> cases paused <;> simp
  · obtain ⟨rfl⟩ : _ = out := Option.some_injective _ hres
    refine ⟨rfl, ?_⟩
    cases running <;> cases paused <;> simp
  · cases hres

/-- C7 falsified as universally stated: on the exception exit (a decoder
render call that throws), `export_to_file` returns failure without restoring
the module position (left at 0 instead of the entry position 5) or the pause
state (left paused although the engine was playing). -/
theorem export_restore_counterexample :
    export_to_file true true c7Opts c7ThrowEnv true false 5 = some c7ThrownOut ∧
    c7ThrownOut.finalPos ≠ 5 ∧ c7ThrownOut.finalPaused ≠ false := by
  refine ⟨?_, by norm_num [c7ThrownOut], by simp [c7ThrownOut]⟩
  simp [export_to_file, export_loop, c7Opts, c7ThrowEnv, c7ThrownOut]

/-- Witness for the amended C7 at a concrete input: a throw-free run (the
decoder reports immediate end of module) restores position 5 and the
un-paused state on its failure exit. -/
theorem export_restores_witness :
    (∀ k n, c7OkEnv.render k n ≠ none) ∧
    export_to_file true true c7Opts c7OkEnv true false 5 = some c7OkOut ∧
    c7OkOut.finalPos = 5 ∧ c7OkOut.finalPaused = false := by
  have hres : export_to_file true true c7Opts c7OkEnv true false 5
      = some c7OkOut := by
    simp [export_to_file, export_loop, export_audio, c7Opts, c7OkEnv, c7OkOut]
  exact ⟨fun k n => by simp [c7OkEnv], hres,
    export_restores_position_and_pause true true c7Opts c7OkEnv true false 5
      c7OkOut (fun k n => by simp [c7OkEnv]) hres⟩

/-- C1 falsified on the code: an MP3 export in a build without LAME is
rejected with the format-not-supported reason, but only **after** the render
loop has run — the outcome records 1 rendered sample (the whole module) at
the moment of rejection, refuting "no audio frames are rendered prior to the
rejection". -/
theorem export_unsupported_counterexample :
    export_to_file false false c1Opts c1Env false false 0 = some c1Out ∧
    c1Out.errorMessage = "Format not supported (missing library)" ∧
    c1Out.success = false ∧
    0 < c1Out.samplesRendered := by
  refine ⟨?_, rfl, rfl, by norm_num [c1Out]⟩
  simp [export_to_file, export_loop, export_audio, is_format_supported,
    c1Opts, c1Env, c1Out]

/-- C1 (amended): an export request with an unsupported format always fails,
but the rejection happens in `AudioExporter::export_audio`, after the render
loop of `Player::export_to_file` has completed: the failure reason is the
format-not-supported message whenever any audio was rendered (an empty
render yields the no-audio-data failure instead), and the number of samples
rendered is the same as for an export with any other format — the rendering
work is performed regardless of the format. -/
theorem export_unsupported_rejected_after_rendering
    (hl hf : Bool) (opts : PExportOptions) (env : ExportEnv)
    (running paused : Bool) (pos0 : ℚ) (out : ExportOutcome)
    (hfmt : is_format_supported hl hf opts.format = false)
    (hpath : opts.output_path ≠ "")
    (hprog : opts.progress = none)
    (hnothrow : ∀ k n, env.render k n ≠ none)
    (hres : export_to_file hl hf opts env running paused pos0 = some out) :
    out.success = false ∧
    (0 < out.samplesRendered →
      out.errorMessage = "Format not supported (missing library)") ∧
    (out.samplesRendered = 0 →
      out.errorMessage = "No audio data to export") ∧
    ∀ (hl2 hf2 : Bool) (fmt2 : ExportFormat) (out2 : ExportOutcome),
      export_to_file hl2 hf2 { opts with format := fmt2 } env running paused
        pos0 = some out2 →
      out2.samplesRendered = out.samplesRendered := by
  simp only [export_to_file] at hres
  rcases hL : export_loop env.render env.posAfter opts.progress opts.channels
      (⌊env.duration * opts.sample_rate * opts.channels⌋.toNat)
      (⌊env.duration * opts.sample_rate * opts.channels⌋.toNat + 1) 0 0 0 with
    ⟨r, p⟩ | ⟨r, p⟩ | ⟨r, p⟩ | ⟨r, p⟩ <;> rw [hL] at hres
  · exact absurd hL (export_loop_no_throw _ _ _ _ _ hnothrow _ _ _ _ _ _)
  · rw [hprog] at hL
    exact absurd hL (export_loop_no_cancel _ _ _ _ _ _ _ _ _ _)
  · obtain ⟨rfl⟩ : _ = out := Option.some_injective _ hres
    have hsame : ∀ (hl2 hf2 : Bool) (fmt2 : ExportFormat)
        (out2 : ExportOutcome),
        export_to_file hl2 hf2 { opts with format := fmt2 } env running paused
          pos0 = some out2 →
        out2.samplesRendered = r := by
      intro hl2 hf2 fmt2 out2 hres2
      simp only [export_to_file] at hres2
      rw [hL] at hres2
      obtain ⟨rfl⟩ : _ = out2 := Option.some_injective _ hres2
      rfl
    by_cases hr : r = 0
    · subst hr
      refine ⟨?_, ?_, ?_, hsame⟩ <;>
        simp [export_audio, hpath, hfmt]
    · refine ⟨?_, ?_, ?_, hsame⟩ <;>
        simp [export_audio, hpath, hfmt, hr]
  · cases hres

/-- Witness for the amended C1 at a concrete input: the MP3-without-LAME
request fails with the format message after rendering 1 sample, and a WAV
request over the same module renders the same 1 sample. -/
theorem export_unsupported_witness :
    (is_format_supported false false c1Opts.format = false ∧
      c1Opts.output_path ≠ "" ∧ c1Opts.progress = none) ∧
    (c1Out.success = false ∧
      (0 < c1Out.samplesRendered →
        c1Out.errorMessage = "Format not supported (missing library)")) := by
  have hres : export_to_file false false c1Opts c1Env false false 0
      = some c1Out := by
    simp [export_to_file, export_loop, export_audio, is_format_supported,
      c1Opts, c1Env, c1Out]
  have h := export_unsupported_rejected_after_rendering false false c1Opts
    c1Env false false 0 c1Out (by decide) (by decide) rfl
    (fun k n => by simp [c1Env]) hres
  exact ⟨⟨by decide, by decide, rfl⟩, h.1, h.2.1⟩

/-- Closed form of the waveform fill loop for a cursor strictly inside the
ring: starting at `st.pos`, it writes `min pairs.length (512 - st.pos)`
pairs at consecutive indices and advances the cursor by that count. -/
theorem wf_write_spec (pairs : List (ℚ × ℚ)) :
    ∀ st : WaveformState, st.pos < 512 →
      (wf_write st pairs).pos = st.pos + min pairs.length (512 - st.pos) ∧
      (∀ k : ℕ, (wf_write st pairs).left k =
        if st.pos ≤ k ∧ k < st.pos + min pairs.length (512 - st.pos) then
          (pairs.getD (k - st.pos) (0, 0)).1
        else st.left k) ∧
      (∀ k : ℕ, (wf_write st pairs).right k =
        if st.pos ≤ k ∧ k < st.pos + min pairs.length (512 - st.pos) then
          (pairs.getD (k - st.pos) (0, 0)).2
        else st.right k) := by
  induction pairs with
  | nil =>
    intro st h
    refine ⟨?_, fun k => ?_, fun k => ?_⟩ <;>
      simp only [wf_write, List.length_nil] <;>
      first
        | omega
        | rw [if_neg (by omega)]
  | cons pr rest ih =>
    intro st h
    have hp : ¬ 512 ≤ st.pos := by omega
    by_cases hend : 512 ≤ st.pos + 1
    · have hm : min (pr :: rest).length (512 - st.pos) = 1 := by
        simp only [List.length_cons]; omega
      refine ⟨?_, fun k => ?_, fun k => ?_⟩
      · simp only [wf_write, if_neg hp, if_pos hend, hm]
      · simp only [wf_write, if_neg hp, if_pos hend, hm]
        by_cases hk : k = st.pos
        · subst hk
          rw [if_pos ⟨le_refl _, by omega⟩]
          simp [Function.update_same]
        · rw [if_neg (by omega)]
          exact Function.update_noteq hk _ _
      · simp only [wf_write, if_neg hp, if_pos hend, hm]
        by_cases hk : k = st.pos
        · subst hk
          rw [if_pos ⟨le_refl _, by omega⟩]
          simp [Function.update_same]
        · rw [if_neg (by omega)]
          exact Function.update_noteq hk _ _
    · have h1 : st.pos + 1 < 512 := by omega
      obtain ⟨ihp, ihl, ihr⟩ :=
        ih ⟨Function.update st.left st.pos pr.1,
            Function.update st.right st.pos pr.2, st.pos + 1⟩ h1
      dsimp only at ihp ihl ihr
      have hm : min (pr :: rest).length (512 - st.pos)
          = 1 + min rest.length (512 - (st.pos + 1)) := by
        simp only [List.length_cons]; omega
      refine ⟨?_, fun k => ?_, fun k => ?_⟩
      · simp only [wf_write, if_neg hp, if_neg hend]
        rw [ihp, hm]
        omega
      · simp only [wf_write, if_neg hp, if_neg hend]
        rw [ihl k]
        by_cases hk0 : k = st.pos
        · subst hk0
          rw [if_neg (by omega), if_pos ⟨le_refl _, by omega⟩]
          simp [Function.update_same]
        · by_cases hwin : st.pos + 1 ≤ k ∧
              k < st.pos + 1 + min rest.length (512 - (st.pos + 1))
          · rw [if_pos hwin, if_pos (by omega)]
            have hks : k - st.pos = (k - (st.pos + 1)) + 1 := by omega
            rw [hks, List.getD_cons_succ]
          · rw [if_neg hwin, if_neg (by omega)]
            exact Function.update_noteq hk0 _ _
      · simp only [wf_write, if_neg hp, if_neg hend]
        rw [ihr k]
        by_cases hk0 : k = st.pos
        · subst hk0
          rw [if_neg (by omega), if_pos ⟨le_refl _, by omega⟩]
          simp [Function.update_same]
        · by_cases hwin : st.pos + 1 ≤ k ∧
              k < st.pos + 1 + min rest.length (512 - (st.pos + 1))
          · rw [if_pos hwin, if_pos (by omega)]
            have hks : k - st.pos = (k - (st.pos + 1)) + 1 := by omega
            rw [hks, List.getD_cons_succ]
          · rw [if_neg hwin, if_neg (by omega)]
            exact Function.update_noteq hk0 _ _

/-- Number of pairs visited by the decimated fill pass. -/
theorem wf_pairs_length (data : ℕ → ℚ) (S d : ℕ) :
    (wf_pairs data S d).length = (S + (2 * d - 1)) / (2 * d) := by
  simp [wf_pairs]

/-- The j-th decimated pair is `(data[2dj], data[2dj+1])`. -/
theorem wf_pairs_getD (data : ℕ → ℚ) (S d j : ℕ)
    (hj : j < (S + (2 * d - 1)) / (2 * d)) :
    (wf_pairs data S d).getD j (0, 0) = (data (2 * d * j), data (2 * d * j + 1)) := by
  unfold wf_pairs
  rw [List.getD_eq_getElem?_getD, List.getElem?_map, List.getElem?_range hj]
  rfl

/-- Closed form of the complete fill pass `wf_write st (wf_pairs data S d)`
for an arbitrary cursor: the effective start is 0 when the ring was full,
`min ⌈S/(2d)⌉ (512 - start)` consecutive pairs are written, and the cursor
ends just past the last write. -/
theorem wf_fill_spec (data : ℕ → ℚ) (S d : ℕ) (st : WaveformState)
    (hd : 1 ≤ d) (hS : 0 < S) :
    (wf_write st (wf_pairs data S d)).pos
      = (if 512 ≤ st.pos then 0 else st.pos)
        + min ((S + (2 * d - 1)) / (2 * d))
            (512 - (if 512 ≤ st.pos then 0 else st.pos)) ∧
    (∀ k : ℕ, (wf_write st (wf_pairs data S d)).left k =
      if (if 512 ≤ st.pos then 0 else st.pos) ≤ k ∧
          k < (if 512 ≤ st.pos then 0 else st.pos)
            + min ((S + (2 * d - 1)) / (2 * d))
                (512 - (if 512 ≤ st.pos then 0 else st.pos)) then
        data (2 * d * (k - (if 512 ≤ st.pos then 0 else st.pos)))
      else st.left k) ∧
    (∀ k : ℕ, (wf_write st (wf_pairs data S d)).right k =
      if (if 512 ≤ st.pos then 0 else st.pos) ≤ k ∧
          k < (if 512 ≤ st.pos then 0 else st.pos)
            + min ((S + (2 * d - 1)) / (2 * d))
                (512 - (if 512 ≤ st.pos then 0 else st.pos)) then
        data (2 * d * (k - (if 512 ≤ st.pos then 0 else st.pos)) + 1)
      else st.right k) := by
  have hnavail : 1 ≤ (S + (2 * d - 1)) / (2 * d) := by
    rw [Nat.le_div_iff_mul_le (by omega)]
    omega
  rcases Nat.lt_or_ge st.pos 512 with hpos | hpos
  · have hlt : ¬ 512 ≤ st.pos := by omega
    obtain ⟨hp, hl, hr⟩ := wf_write_spec (wf_pairs data S d) st hpos
    rw [wf_pairs_length] at hp hl hr
    simp only [if_neg hlt]
    refine ⟨hp, fun k => ?_, fun k => ?_⟩
    · rw [hl k]
      split_ifs with hw
      · rw [wf_pairs_getD data S d _ (by omega)]
      · rfl
    · rw [hr k]
      split_ifs with hw
      · rw [wf_pairs_getD data S d _ (by omega)]
      · rfl
  · have hge : 512 ≤ st.pos := hpos
    have hne : wf_pairs data S d ≠ [] := by
      intro hnil
      have := wf_pairs_length data S d
      rw [hnil] at this
      simp at this
      omega
    obtain ⟨pr, rest, hcons⟩ := List.exists_cons_of_ne_nil hne
    have hstep : wf_write st (wf_pairs data S d)
        = wf_write ⟨st.left, st.right, 0⟩ (wf_pairs data S d) := by
      rw [hcons]
      simp only [wf_write, if_pos hge, if_neg (show ¬ (512:ℕ) ≤ 0 by omega)]
    rw [hstep]
    obtain ⟨hp, hl, hr⟩ :=
      wf_write_spec (wf_pairs data S d) ⟨st.left, st.right, 0⟩
        (show (0:ℕ) < 512 by omega)
    dsimp only at hp hl hr
    rw [wf_pairs_length] at hp hl hr
    simp only [if_pos hge]
    refine ⟨by rw [hp], fun k => ?_, fun k => ?_⟩
    · rw [hl k]
      simp only [Nat.zero_add, Nat.sub_zero, Nat.zero_le, true_and]
      split_ifs with hw
      · rw [wf_pairs_getD data S d _ (by omega)]
      · rfl
    · rw [hr k]
      simp only [Nat.zero_add, Nat.sub_zero, Nat.zero_le, true_and]
      split_ifs with hw
      · rw [wf_pairs_getD data S d _ (by omega)]
      · rfl

/-- C2 falsified on the code: the decimation divisor acts on the interleaved
sample count S, not on S/2.  For S = 4096 the source decimates by
`max(1, 4096/2048) = 2` (the second pair written is `data[4]`), while the
claimed formula `max(1, (S/2)/2048) = 1` would write `data[2]` there. -/
theorem update_waveform_decimation_counterexample :
    (update_waveform wfDemoData 4096 wfStart510).left 511 = 4 ∧
    (update_waveform_claimed wfDemoData 4096 wfStart510).left 511 = 2 ∧
    (4 : ℚ) ≠ 2 := by
  refine ⟨?_, ?_, by norm_num⟩
  · have h1 := (wf_fill_spec wfDemoData 4096 2 wfStart510 (by norm_num)
      (by norm_num)).2.1 511
    rw [update_waveform, show max 1 (4096 / (512 * 4)) = 2 from by norm_num, h1]
    norm_num [wfStart510, wfDemoData]
  · have h2 := (wf_fill_spec wfDemoData 4096 1 wfStart510 (by norm_num)
      (by norm_num)).2.1 511
    rw [update_waveform_claimed,
      show max 1 ((4096 / 2) / (4 * 512)) = 1 from by norm_num, h2]
    norm_num [wfStart510, wfDemoData]

/-- C2 (amended): for an incoming buffer of S interleaved samples (S > 0)
the sampler uses decimation `max(1, S / (4 × ringLength))` — the divisor
acts on the interleaved sample count, i.e. twice the claimed
`(S/2) / (4 × ringLength)` — writes every decimation-th stereo pair at
consecutive ring indices starting from the cursor (wrapped to 0 first when
the ring was full), and stops the fill pass as soon as the cursor reaches
the end of the ring, so at most `512 - start` pairs are written per call. -/
theorem update_waveform_characterization (data : ℕ → ℚ) (S : ℕ)
    (st : WaveformState) (hS : 0 < S) :
    (update_waveform data S st).pos
      = (if 512 ≤ st.pos then 0 else st.pos)
        + min ((S + (2 * max 1 (S / (512 * 4)) - 1)) / (2 * max 1 (S / (512 * 4))))
            (512 - (if 512 ≤ st.pos then 0 else st.pos)) ∧
    (∀ k : ℕ, (update_waveform data S st).left k =
      if (if 512 ≤ st.pos then 0 else st.pos) ≤ k ∧
          k < (if 512 ≤ st.pos then 0 else st.pos)
            + min ((S + (2 * max 1 (S / (512 * 4)) - 1)) /
                  (2 * max 1 (S / (512 * 4))))
                (512 - (if 512 ≤ st.pos then 0 else st.pos)) then
        data (2 * max 1 (S / (512 * 4)) *
          (k - (if 512 ≤ st.pos then 0 else st.pos)))
      else st.left k) ∧
    (∀ k : ℕ, (update_waveform data S st).right k =
      if (if 512 ≤ st.pos then 0 else st.pos) ≤ k ∧
          k < (if 512 ≤ st.pos then 0 else st.pos)
            + min ((S + (2 * max 1 (S / (512 * 4)) - 1)) /
                  (2 * max 1 (S / (512 * 4))))
                (512 - (if 512 ≤ st.pos then 0 else st.pos)) then
        data (2 * max 1 (S / (512 * 4)) *
          (k - (if 512 ≤ st.pos then 0 else st.pos)) + 1)
      else st.right k) :=
  wf_fill_spec data S (max 1 (S / (512 * 4))) st (le_max_left 1 _) hS

/-- Witness for the amended C2 at a concrete input: a 2-sample buffer into
the fresh ring advances the cursor to 1. -/
theorem update_waveform_characterization_witness :
    (0 : ℕ) < 2 ∧ (update_waveform wfDemoData 2 wfInit).pos = 1 := by
  refine ⟨by norm_num, ?_⟩
  have h := (update_waveform_characterization wfDemoData 2 wfInit (by norm_num)).1
  rw [h]
  norm_num [wfInit]

/-- Running a step function over a concatenation splits into two runs. -/
theorem run_frames_append {σ : Type} (step : σ → (ℚ × ℚ) → (ℚ × ℚ) × σ)
    (xs ys : List (ℚ × ℚ)) :
    ∀ st : σ, run_frames step (xs ++ ys) st
      = ((run_frames step xs st).1
          ++ (run_frames step ys (run_frames step xs st).2).1,
         (run_frames step ys (run_frames step xs st).2).2) := by
  induction xs with
  | nil => intro st; simp [run_frames]
  | cons f rest ih =>
    intro st
    simp only [List.cons_append, run_frames, List.append_eq]
    rw [ih]

/-- One echo step on a fresh slot during the sustained phase: the read
lands on a still-zero region, so the output is pure dry signal `0.7·c` and
the write stores `c` at the cursor. -/
theorem echo_step_fresh (D m : ℕ) (c : ℚ) (hm : m < D) (hD : D < 48000)
    (hc1 : -1 ≤ c) (hc2 : c ≤ 1) :
    echo_step D (echoStateAt c m) (c, c)
      = ((c * (7/10), c * (7/10)), echoStateAt c (m + 1)) := by
  have hread : ring_read 48000 m D = m + 48000 - D := by
    unfold ring_read
    rw [usub_eq_sub (by omega) (by push_cast; omega)]
    exact Nat.mod_eq_of_lt (by omega)
  have hcl : clamp1 (c * (1 - 3/10) + 0 * (3/10)) = c * (7/10) := by
    rw [show c * (1 - 3/10) + 0 * (3/10) = c * (7/10) from by ring]
    exact clamp1_of_mem (by nlinarith) (by nlinarith)
  have hcw : clamp1 (c + 0 * (2/5)) = c := by
    rw [show c + 0 * (2/5) = c from by ring]
    exact clamp1_of_mem hc1 hc2
  unfold echo_step
  dsimp only [echoStateAt]
  rw [hread, if_neg (show ¬ (m + 48000 - D < m) by omega), hcl, hcw,
    Nat.mod_eq_of_lt (show m + 1 < 48000 by omega)]
  refine congrArg _ ?_
  refine EchoState.ext ?_ ?_ rfl
  · funext i
    dsimp only
    by_cases him : i = m
    · subst him
      rw [Function.update_same, if_pos (by omega)]
    · rw [Function.update_noteq him]
      by_cases hil : i < m
      · rw [if_pos hil, if_pos (by omega)]
      · rw [if_neg hil, if_neg (by omega)]
  · funext i
    dsimp only
    by_cases him : i = m
    · subst him
      rw [Function.update_same, if_pos (by omega)]
    · rw [Function.update_noteq him]
      by_cases hil : i < m
      · rw [if_pos hil, if_pos (by omega)]
      · rw [if_neg hil, if_neg (by omega)]

/-- During the sustained phase every output frame is the dry signal scaled
by `1 - mix = 0.7`, and the delay line fills with `c`. -/
theorem echo_sustained_phase (D : ℕ) (c : ℚ) (hD : D < 48000)
    (hc1 : -1 ≤ c) (hc2 : c ≤ 1) :
    ∀ (j m : ℕ), m + j ≤ D →
      run_frames (echo_step D) (List.replicate j (c, c)) (echoStateAt c m)
        = (List.replicate j (c * (7/10), c * (7/10)), echoStateAt c (m + j)) := by
  intro j
  induction j with
  | zero => intro m hm; simp [run_frames]
  | succ n ih =>
    intro m hm
    rw [List.replicate_succ]
    simp only [run_frames]
    rw [echo_step_fresh D m c (by omega) hD hc1 hc2, ih (m + 1) (by omega)]
    rw [show m + 1 + n = m + (n + 1) from by omega, ← List.replicate_succ]

/-- The first silent frame after the sustained phase: the read lands on the
slot written `D` frames earlier (holding `c`), so the delayed copy appears
scaled by `mix = 0.3` exactly. -/
theorem echo_step_at_delay (D : ℕ) (c : ℚ) (hD1 : 1 ≤ D) (hD2 : D < 48000)
    (hc1 : -1 ≤ c) (hc2 : c ≤ 1) :
    (echo_step D (echoStateAt c D) (0, 0)).1 = (c * (3/10), c * (3/10)) := by
  have hread : ring_read 48000 D D = 0 := by
    unfold ring_read
    rw [usub_eq_sub (by omega) (by push_cast; omega)]
    simp
  have hcl : clamp1 (0 * (1 - 3/10) + c * (3/10)) = c * (3/10) := by
    rw [show (0:ℚ) * (1 - 3/10) + c * (3/10) = c * (3/10) from by ring]
    exact clamp1_of_mem (by nlinarith) (by nlinarith)
  unfold echo_step
  dsimp only [echoStateAt]
  rw [hread, if_pos (show 0 < D by omega), hcl]

/-- Full output of the scenario run over the raw step function: `D` frames
of sustained `c` followed by one silent frame, from a fresh delay line. -/
theorem echo_run_sustained (D : ℕ) (c : ℚ) (hD1 : 1 ≤ D) (hD2 : D < 48000)
    (hc1 : -1 ≤ c) (hc2 : c ≤ 1) :
    (run_frames (echo_step D) (List.replicate D (c, c) ++ [(0, 0)])
        (echoStateAt c 0)).1
      = List.replicate D (c * (7/10), c * (7/10))
        ++ [(c * (3/10), c * (3/10))] := by
  rw [run_frames_append, echo_sustained_phase D c hD2 hc1 hc2 D 0 (by omega)]
  simp only [run_frames, Nat.zero_add]
  rw [echo_step_at_delay D c hD1 hD2 hc1 hc2]

/-- The fresh echo line is the `m = 0` ghost state. -/
theorem initEchoState_eq (c : ℚ) : initEchoState = echoStateAt c 0 := by
  unfold initEchoState echoStateAt
  refine EchoState.ext ?_ ?_ rfl <;> funext i <;> simp

/-- C6 falsified as stated: with `sample_rate = 8` (delay `D = 2`) and a
sustained input of `1/2`, the first delayed copy (output index `D`) equals
`mix · c = 3/20`, not `feedback · mix · c = (2/5)·(3/10)·(1/2)`. -/
theorem apply_echo_first_copy_counterexample :
    ((apply_echo 8 (List.replicate 2 (1/2, 1/2) ++ [(0, 0)])
        initEchoState).1).getD 2 (9, 9)
      = ((1/2) * (3/10), (1/2) * (3/10)) ∧
    ((1/2) : ℚ) * (3/10) ≠ (2/5) * ((3/10) * (1/2)) := by
  constructor
  · rw [apply_echo, show (8:ℕ) / 4 = 2 from by norm_num, initEchoState_eq (1/2),
      echo_run_sustained 2 (1/2) (by norm_num) (by norm_num) (by norm_num)
        (by norm_num)]
    rfl
  · norm_num

/-- C6 (amended): feed the Echo effect a sustained constant `c` (with
`|c| ≤ 1`) for exactly the configured delay duration (0.25 s =
`sample_rate/4` frames) followed by silence, starting from a fresh delay
line: every output during the sustained phase is the pure dry signal
`(1 - mix)·c = 0.7·c` (no echo before the delay offset), and at exactly the
delay offset the delayed copy first appears, scaled by the mix parameter
alone: `mix·c = 0.3·c`.  The feedback parameter (0.4) does not scale this
first copy; it only enters later repetitions. -/
theorem apply_echo_delay_offset (sampleRate : ℕ) (c : ℚ)
    (h4 : 4 ≤ sampleRate) (h192 : sampleRate < 192000)
    (hc1 : -1 ≤ c) (hc2 : c ≤ 1) :
    (apply_echo sampleRate
        (List.replicate (sampleRate / 4) (c, c) ++ [(0, 0)]) initEchoState).1
      = List.replicate (sampleRate / 4) (c * (7/10), c * (7/10))
        ++ [(c * (3/10), c * (3/10))] := by
  have hD1 : 1 ≤ sampleRate / 4 := by omega
  have hD2 : sampleRate / 4 < 48000 := by omega
  rw [apply_echo, initEchoState_eq c,
    echo_run_sustained (sampleRate / 4) c hD1 hD2 hc1 hc2]

/-- Witness for the amended C6 at a concrete input: sample rate 8 (delay 2),
sustained level 1/2 — two dry frames at 7/20 and the first echo 3/20 at
offset 2. -/
theorem apply_echo_delay_offset_witness :
    ((4 : ℕ) ≤ 8 ∧ (8 : ℕ) < 192000 ∧ (-1 : ℚ) ≤ 1/2 ∧ (1/2 : ℚ) ≤ 1) ∧
    (apply_echo 8 (List.replicate (8 / 4) (1/2, 1/2) ++ [(0, 0)])
        initEchoState).1
      = List.replicate (8 / 4) ((1/2) * (7/10), (1/2) * (7/10))
        ++ [((1/2) * (3/10), (1/2) * (3/10))] :=
  ⟨⟨by norm_num, by norm_num, by norm_num, by norm_num⟩,
   apply_echo_delay_offset 8 (1/2) (by norm_num) (by norm_num) (by norm_num)
     (by norm_num)⟩

theorem sumRows_self (m : ModuleLayout) (a : ℤ) : sumRows m a a = 0 := by
  simp [sumRows]

theorem sumRows_split (m : ModuleLayout) {a b c : ℤ} (hab : a ≤ b) (hbc : b ≤ c) :
    sumRows m a c = sumRows m a b + sumRows m b c := by
  unfold sumRows
  rw [← Finset.Ico_union_Ico_eq_Ico hab hbc,
    Finset.sum_union (Finset.Ico_disjoint_Ico_consecutive a b c)]

theorem sumRows_single (m : ModuleLayout) (o : ℤ) :
    sumRows m o (o + 1) = rowsAt m o := by
  unfold sumRows
  have hs : Finset.Ico o (o + 1) = {o} := by
    ext x
    simp only [Finset.mem_Ico, Finset.mem_singleton]
    omega
  rw [hs, Finset.sum_singleton]

theorem sumRows_succ (m : ModuleLayout) {a o : ℤ} (h : a ≤ o) :
    sumRows m a (o + 1) = sumRows m a o + rowsAt m o := by
  rw [sumRows_split m h (by omega), sumRows_single]

/-- Over a valid range every pattern has at least one row, so the flattened
row count dominates the order count. -/
theorem sumRows_lower (m : ModuleLayout) {lo hi a b : ℤ} (hv : validOn m lo hi)
    (hla : lo ≤ a) (hab : a ≤ b) (hbh : b ≤ hi + 1) :
    b - a ≤ sumRows m a b := by
  have h1 : ∀ o ∈ Finset.Ico a b, (1:ℤ) ≤ rowsAt m o := by
    intro o ho
    rw [Finset.mem_Ico] at ho
    exact (hv o (by omega) (by omega)).2
  have h2 := Finset.card_nsmul_le_sum (Finset.Ico a b) (rowsAt m) 1 h1
  rw [Int.card_Ico] at h2
  have h3 : ((b - a).toNat : ℤ) ≤ sumRows m a b := by
    simpa [nsmul_eq_mul, sumRows] using h2
  omega

/-- The forward walk in flattened-row coordinates: under validity of the
traversed range and enough remaining capacity (no clamp), it lands on the
valid position exactly `n` rows ahead. -/
theorem advance_forward_flat (m : ModuleLayout) {lo hi : ℤ}
    (hv : validOn m lo hi) (hhi : hi < m.numOrders) :
    ∀ (o r n : ℤ), lo ≤ o → o ≤ hi → 0 ≤ r → r < rowsAt m o → 0 ≤ n →
      sumRows m lo o + r + n ≤ sumRows m lo (hi + 1) - 1 →
      lo ≤ (advance_forward m o r n).1 ∧ (advance_forward m o r n).1 ≤ hi ∧
      0 ≤ (advance_forward m o r n).2 ∧
      (advance_forward m o r n).2 < rowsAt m (advance_forward m o r n).1 ∧
      sumRows m lo (advance_forward m o r n).1 + (advance_forward m o r n).2
        = sumRows m lo o + r + n := by
  suffices key : ∀ (fuel : ℕ) (o r n : ℤ), (hi - o).toNat < fuel →
      lo ≤ o → o ≤ hi → 0 ≤ r → r < rowsAt m o → 0 ≤ n →
      sumRows m lo o + r + n ≤ sumRows m lo (hi + 1) - 1 →
      lo ≤ (advance_forward m o r n).1 ∧ (advance_forward m o r n).1 ≤ hi ∧
      0 ≤ (advance_forward m o r n).2 ∧
      (advance_forward m o r n).2 < rowsAt m (advance_forward m o r n).1 ∧
      sumRows m lo (advance_forward m o r n).1 + (advance_forward m o r n).2
        = sumRows m lo o + r + n by
    intro o r n h1 h2 h3 h4 h5 h6
    exact key ((hi - o).toNat + 1) o r n (by omega) h1 h2 h3 h4 h5 h6
  intro fuel
  induction fuel with
  | zero => intro o r n hfuel; omega
  | succ fuel ih =>
    intro o r n hfuel hlo2 hohi hr0 hrlt hn0 hcap
    have hvo := hv o hlo2 hohi
    have hrow : rowsAt m o = m.patternRows (m.orderPattern o) := rfl
    by_cases hn : 0 < n
    · have hguard : 0 < n ∧ o < m.numOrders := ⟨hn, by omega⟩
      rw [advance_forward, dif_pos hguard,
        if_neg (show ¬ m.orderPattern o < 0 by omega),
        if_neg (show ¬ m.patternRows (m.orderPattern o) ≤ 0 by omega)]
      by_cases hb : n ≤ m.patternRows (m.orderPattern o) - r - 1
      · rw [if_pos hb]
        refine ⟨hlo2, hohi, by omega, ?_, ?_⟩
        · show r + n < rowsAt m o
          omega
        · show sumRows m lo o + (r + n) = sumRows m lo o + r + n
          ring
      · rw [if_neg hb]
        have hc1 : sumRows m lo (hi + 1) = sumRows m lo hi + rowsAt m hi :=
          sumRows_succ m (by omega)
        have hoh : o < hi := by
          by_contra hcon
          have hoe : o = hi := by omega
          subst hoe
          omega
        have hv1 := hv (o + 1) (by omega) (by omega)
        have hrow1 : rowsAt m (o + 1) = m.patternRows (m.orderPattern (o + 1)) := rfl
        have hplus : sumRows m lo (o + 1) = sumRows m lo o + rowsAt m o :=
          sumRows_succ m (by omega)
        have hrec := ih (o + 1) 0
          (n - (m.patternRows (m.orderPattern o) - r - 1) - 1)
          (by omega) (by omega) (by omega) (le_refl 0) (by omega) (by omega)
          (by omega)
        refine ⟨hrec.1, hrec.2.1, hrec.2.2.1, hrec.2.2.2.1, ?_⟩
        omega
    · have hn' : n = 0 := by omega
      rw [advance_forward, dif_neg (fun hc => hn hc.1),
        if_neg (show ¬ m.numOrders ≤ o by omega)]
      refine ⟨hlo2, hohi, hr0, hrlt, ?_⟩
      show sumRows m lo o + r = sumRows m lo o + r + n
      omega

/-- The backward walk in flattened-row coordinates: under validity of the
traversed range and `n` within the flattened distance to the range start
(no clamp at (0,0)), it lands on the valid position exactly `n` rows back. -/
theorem advance_backward_flat (m : ModuleLayout) {lo hi : ℤ}
    (hv : validOn m lo hi) (hlo0 : 0 ≤ lo) :
    ∀ (o r n : ℤ), lo ≤ o → o ≤ hi → 0 ≤ r → r < rowsAt m o → 0 ≤ n →
      n ≤ sumRows m lo o + r →
      lo ≤ (advance_backward m o r n).1 ∧ (advance_backward m o r n).1 ≤ hi ∧
      0 ≤ (advance_backward m o r n).2 ∧
      (advance_backward m o r n).2 < rowsAt m (advance_backward m o r n).1 ∧
      sumRows m lo (advance_backward m o r n).1 + (advance_backward m o r n).2
        = sumRows m lo o + r - n := by
  suffices key : ∀ (fuel : ℕ) (o r n : ℤ), (o - lo).toNat < fuel →
      lo ≤ o → o ≤ hi → 0 ≤ r → r < rowsAt m o → 0 ≤ n →
      n ≤ sumRows m lo o + r →
      lo ≤ (advance_backward m o r n).1 ∧ (advance_backward m o r n).1 ≤ hi ∧
      0 ≤ (advance_backward m o r n).2 ∧
      (advance_backward m o r n).2 < rowsAt m (advance_backward m o r n).1 ∧
      sumRows m lo (advance_backward m o r n).1 + (advance_backward m o r n).2
        = sumRows m lo o + r - n by
    intro o r n h1 h2 h3 h4 h5 h6
    exact key ((o - lo).toNat + 1) o r n (by omega) h1 h2 h3 h4 h5 h6
  intro fuel
  induction fuel with
  | zero => intro o r n hfuel; omega
  | succ fuel ih =>
    intro o r n hfuel hlo2 hohi hr0 hrlt hn0 hcap
    by_cases hn : 0 < n
    · have hguard : 0 < n ∧ 0 ≤ o := ⟨hn, by omega⟩
      rw [advance_backward, dif_pos hguard]
      by_cases hbr : 0 < r ∧ n - min r n = 0
      · rw [if_pos hbr]
        have hmin : min r n = n := by omega
        refine ⟨hlo2, hohi, by omega, ?_, ?_⟩
        · show r - min r n < rowsAt m o
          omega
        · show sumRows m lo o + (r - min r n) = sumRows m lo o + r - n
          omega
      · have hnr : r < n := by
          rcases Decidable.em (0 < r) with hr | hr
          · have hne : ¬ (n - min r n = 0) := fun hc => hbr ⟨hr, hc⟩
            omega
          · omega
        have hself := sumRows_self m lo
        have hSpos : 0 < sumRows m lo o := by omega
        have holo : lo < o := by
          by_contra hcon
          have hoe : o = lo := by omega
          rw [hoe] at hSpos
          omega
        rw [if_neg hbr, if_neg (show ¬ (o - 1 < 0) by omega)]
        have hvo1 := hv (o - 1) (by omega) (by omega)
        rw [if_pos hvo1.1,
          if_neg (show ¬ m.patternRows (m.orderPattern (o - 1)) ≤ 0 by
            have := hvo1.2
            rw [show rowsAt m (o - 1) = m.patternRows (m.orderPattern (o - 1))
              from rfl] at this
            omega)]
        have hstepv : (if 0 < r then min r n else 0) = r := by
          rcases Decidable.em (0 < r) with hr | hr
          · rw [if_pos hr]; omega
          · rw [if_neg hr]; omega
        rw [hstepv]
        have hrow1 : rowsAt m (o - 1) = m.patternRows (m.orderPattern (o - 1)) := rfl
        have hplus : sumRows m lo o = sumRows m lo (o - 1) + rowsAt m (o - 1) := by
          have hs := sumRows_succ m (show lo ≤ o - 1 by omega)
          rw [show o - 1 + 1 = o from by omega] at hs
          exact hs
        have hv1 := hvo1.2
        have hrec := ih (o - 1) (m.patternRows (m.orderPattern (o - 1)) - 1)
          (n - r - 1) (by omega) (by omega) (by omega) (by omega) (by omega)
          (by omega) (by omega)
        refine ⟨hrec.1, hrec.2.1, hrec.2.2.1, hrec.2.2.2.1, ?_⟩
        omega
    · have hn' : n = 0 := by omega
      rw [advance_backward, dif_neg (fun hc => hn hc.1)]
      refine ⟨hlo2, hohi, hr0, hrlt, ?_⟩
      show sumRows m lo o + r = sumRows m lo o + r - n
      omega

/-- The flattened-row coordinate is injective on valid positions. -/
theorem flat_inj (m : ModuleLayout) {lo hi : ℤ} (hv : validOn m lo hi) :
    ∀ (a b c d : ℤ), lo ≤ a → a ≤ hi → lo ≤ c → c ≤ hi →
      0 ≤ b → b < rowsAt m a → 0 ≤ d → d < rowsAt m c →
      sumRows m lo a + b = sumRows m lo c + d → a = c ∧ b = d := by
  have key : ∀ a b c d : ℤ, lo ≤ a → a ≤ hi → lo ≤ c → c ≤ hi →
      0 ≤ b → b < rowsAt m a → 0 ≤ d →
      sumRows m lo a + b = sumRows m lo c + d → ¬ (a < c) := by
    intro a b c d hla hah hlc hch hb0 hbr hd0 heq hac
    have h1 : sumRows m lo a + b < sumRows m lo (a + 1) := by
      rw [sumRows_succ m hla]; omega
    have h2 : sumRows m lo c = sumRows m lo (a + 1) + sumRows m (a + 1) c :=
      sumRows_split m (by omega) (by omega)
    have h3 : c - (a + 1) ≤ sumRows m (a + 1) c :=
      sumRows_lower m hv (by omega) (by omega) (by omega)
    omega
  intro a b c d hla hah hlc hch hb0 hbr hd0 hdr heq
  rcases lt_trichotomy a c with h | h | h
  · exact absurd h (key a b c d hla hah hlc hch hb0 hbr hd0 heq)
  · subst h
    exact ⟨rfl, by omega⟩
  · exact absurd h (key c d a b hlc hch hla hah hd0 hdr hb0 heq.symm)

/-- C4: a forward `jump_rows(+n)` followed by `jump_rows(-n)` returns to the
original (order, row), provided every order the walk can traverse (the range
`[curOrder, hi]`) carries a valid pattern with at least one row and the
forward walk stays within that range (so neither end clamp fires). -/
theorem jump_rows_roundtrip (m : ModuleLayout) (s : PlayerState) (n hi : ℤ)
    (hn : 0 < n) (hlo : 0 ≤ s.curOrder) (hshi : s.curOrder ≤ hi)
    (hhi : hi < m.numOrders) (hv : validOn m s.curOrder hi)
    (hr0 : 0 ≤ s.curRow) (hrlt : s.curRow < rowsAt m s.curOrder)
    (hcap : s.curRow + n ≤ sumRows m s.curOrder (hi + 1) - 1) :
    (jump_rows m (jump_rows m s n) (-n)).curOrder = s.curOrder ∧
    (jump_rows m (jump_rows m s n) (-n)).curRow = s.curRow := by
  have hself : sumRows m s.curOrder s.curOrder = 0 := sumRows_self m _
  have hF := advance_forward_flat m hv hhi s.curOrder s.curRow n (le_refl _)
    hshi hr0 hrlt (by omega) (by omega)
  have hj1 : jump_rows m s n = { s with
      curOrder := (advance_forward m s.curOrder s.curRow n).1,
      curRow := (advance_forward m s.curOrder s.curRow n).2,
      finished := false } := by
    unfold jump_rows
    rw [if_neg (by omega), if_neg (by omega), if_pos hn]
  rw [hj1]
  unfold jump_rows
  rw [if_neg (show ¬ (-n = 0) by omega), if_neg (by omega),
    if_neg (show ¬ (0 < -n) by omega)]
  dsimp only
  rw [neg_neg]
  have hB := advance_backward_flat m hv hlo
    (advance_forward m s.curOrder s.curRow n).1
    (advance_forward m s.curOrder s.curRow n).2 n
    hF.1 hF.2.1 hF.2.2.1 hF.2.2.2.1 (by omega) (by omega)
  have hinj := flat_inj m hv
    (advance_backward m (advance_forward m s.curOrder s.curRow n).1
      (advance_forward m s.curOrder s.curRow n).2 n).1
    (advance_backward m (advance_forward m s.curOrder s.curRow n).1
      (advance_forward m s.curOrder s.curRow n).2 n).2
    s.curOrder s.curRow
    hB.1 hB.2.1 (le_refl _) hshi hB.2.2.1 hB.2.2.2.1 hr0 hrlt (by omega)
  exact hinj

/-- Witness for C4 at a concrete input: the four-order demo module (4 rows
per pattern), a forward jump of 6 rows from (0,0) and back. -/
theorem jump_rows_roundtrip_witness :
    ((0:ℤ) < 6 ∧ 0 ≤ demoState.curOrder ∧ demoState.curOrder ≤ 2 ∧
      (2:ℤ) < demoLayout.numOrders ∧ validOn demoLayout demoState.curOrder 2 ∧
      0 ≤ demoState.curRow ∧
      demoState.curRow < rowsAt demoLayout demoState.curOrder ∧
      demoState.curRow + 6 ≤ sumRows demoLayout demoState.curOrder (2 + 1) - 1) ∧
    ((jump_rows demoLayout (jump_rows demoLayout demoState 6) (-6)).curOrder
        = demoState.curOrder ∧
      (jump_rows demoLayout (jump_rows demoLayout demoState 6) (-6)).curRow
        = demoState.curRow) := by
  have hval : validOn demoLayout demoState.curOrder 2 := by
    intro o h1 h2
    constructor
    · show (0:ℤ) ≤ o
      have h1' : (0:ℤ) ≤ o := le_trans (by decide) h1
      exact h1'
    · show (1:ℤ) ≤ 4
      decide
  have hsum : sumRows demoLayout demoState.curOrder (2 + 1) = 12 := by
    show sumRows demoLayout 0 3 = 12
    unfold sumRows rowsAt demoLayout
    rw [Finset.sum_const, Int.card_Ico]
    decide
  have hcap : demoState.curRow + 6
      ≤ sumRows demoLayout demoState.curOrder (2 + 1) - 1 := by
    rw [hsum]
    decide
  exact ⟨⟨by decide, by decide, by decide, by decide, hval, by decide,
      by decide, hcap⟩,
    jump_rows_roundtrip demoLayout demoState 6 2 (by decide) (by decide)
      (by decide) (by decide) hval (by decide) (by decide) hcap⟩

end Tracker
